import Mathlib

/-!
# k0sctl: host configurer primitives and two phases

A shallow embedding of `configurer/linux.go`, `phase/upload_binaries.go` and
`phase/validate_hosts.go`.

* A Go `error` is its message (`String`); a Go result `(T, error)` is a pair
  `T × Option String`, `none` standing for `nil`.
* The remote host (`rig/os.Host`) is a state-passing oracle: running a command
  yields an output, an optional error and the next state of the world.
* Libraries outside the repository (`version`, `shellescape`, `path`, the
  `rig` file helpers) are parameters of the definitions that call them.
-/

namespace K0sctl

/-! ## Remote execution -/

/-- The command handed to `Exec`, `Execf` or `ExecOutput`: format string, format
arguments and the options `exec.Sudo` and `exec.Stdin`. -/
structure Cmd where
  format : String
  args : List String
  Sudo : Bool
  Stdin : Option String
deriving DecidableEq, Repr

/-- What a remote command gives back: trimmed output and an error or `nil`. -/
structure ExecResult where
  output : String
  err : Option String
deriving DecidableEq, Repr

/-- The execution collaborator `os.Host` over a world state `σ`. -/
structure OsHost (σ : Type) where
  exec : Cmd → σ → ExecResult × σ

/-- Expansion of the `%s` and `%%` verbs of `fmt.Sprintf` over characters. -/
def sprintfChars : List Char → List String → List Char
  | '%' :: 's' :: rest, a :: as => a.data ++ sprintfChars rest as
  | '%' :: 's' :: rest, [] => "%!s(MISSING)".data ++ sprintfChars rest []
  | '%' :: '%' :: rest, as => '%' :: sprintfChars rest as
  | c :: rest, as => c :: sprintfChars rest as
  | [], _ => []

/-- The function `fmt.Sprintf` restricted to the verbs the sources use. -/
def Sprintf (format : String) (args : List String) : String :=
  String.mk (sprintfChars format.data args)

/-- The command line the remote shell receives. -/
def Cmd.line (c : Cmd) : String := Sprintf c.format c.args

/-- A command given as one ready-made line, without options. -/
def Cmd.plain (line : String) : Cmd := ⟨line, [], false, none⟩

/-- Go's `defer`: `cleanup` runs after `body`, its result is dropped. -/
def withDefer {σ α : Type} (body : σ → α × σ) (cleanup : σ → ExecResult × σ) (s : σ) : α × σ :=
  let r := body s
  (r.1, (cleanup r.2).2)

/-! ## configurer/linux.go -/

/-- The interface `PathFuncs` (the host-independent members). -/
structure PathFuncs where
  K0sBinaryPath : String
  K0sConfigPath : String
  K0sJoinTokenPath : String

/-- The paths of the base `Linux` configurer. -/
def Linux.paths : PathFuncs :=
  ⟨"/usr/local/bin/k0s", "/etc/k0s/k0s.yaml", "/etc/k0s/k0stoken"⟩

/-- Library functions from outside the repository used by `linux.go`. -/
structure Ext where
  quote : String → String
  pathDir : String → String
  strconvQuote : String → String

/-- Go `Linux.Arch`: the host processor architecture in the format k0s expects. -/
def Arch {σ : Type} (h : OsHost σ) (s : σ) : (String × Option String) × σ :=
  let r := h.exec (Cmd.plain "uname -m") s
  match r.1.err with
  | some e => (("", some e), r.2)
  | none =>
    match r.1.output with
    | "x86_64" => (("amd64", none), r.2)
    | "aarch64" => (("arm64", none), r.2)
    | "armv7l" => (("arm", none), r.2)
    | "armv8l" => (("arm", none), r.2)
    | "aarch32" => (("arm", none), r.2)
    | "arm32" => (("arm", none), r.2)
    | "armhfp" => (("arm", none), r.2)
    | "arm-32" => (("arm", none), r.2)
    | arch => ((arch, none), r.2)

/-- Go `Linux.K0sCmdf`: constructs k0s commands in sprintf style. -/
def K0sCmdf (pf : PathFuncs) (template : String) (args : List String) : String :=
  Sprintf "%s %s" [pf.K0sBinaryPath, Sprintf template args]

/-- Go `Linux.TempFile`: a temp file path. -/
def TempFile {σ : Type} (h : OsHost σ) (s : σ) : ExecResult × σ :=
  h.exec (Cmd.plain "mktemp") s

/-- Go `Linux.DownloadURL`: a download from a URL on the host. -/
def DownloadURL {σ : Type} (x : Ext) (h : OsHost σ) (url destination : String) (s : σ) :
    Option String × σ :=
  let r := h.exec (Cmd.plain (Sprintf "curl -sSLf -o %s %s" [x.quote destination, x.quote url])) s
  (r.1.err, r.2)

/-- The removal of a temporary file registered with `defer`. -/
def rmTemp {σ : Type} (h : OsHost σ) (withSudo : Bool) (tmp : String) (s : σ) : ExecResult × σ :=
  h.exec ⟨"rm -f \"%s\"", [tmp], withSudo, none⟩ s

/-- The part of `Linux.DownloadK0s` that runs after the `defer` statement. -/
def DownloadK0s.body {σ : Type} (x : Ext) (pf : PathFuncs) (h : OsHost σ)
    (version arch tmp : String) (s : σ) : Option String × σ :=
  let url := Sprintf "https://github.com/k0sproject/k0s/releases/download/%s/k0s-%s-%s"
    [version, version, arch]
  match DownloadURL x h url tmp s with
  | (some e, s1) => (some e, s1)
  | (none, s1) =>
    let r2 := h.exec ⟨"install -m 0755 -o root -g root -d \"%s\"",
      [x.pathDir pf.K0sBinaryPath], true, none⟩ s1
    match r2.1.err with
    | some e => (some e, r2.2)
    | none =>
      let r3 := h.exec ⟨"install -m 0750 -o root -g root \"%s\" \"%s\"",
        [tmp, pf.K0sBinaryPath], true, none⟩ r2.2
      (r3.1.err, r3.2)

/-- Go `Linux.DownloadK0s`: k0s binary download from github on the host; `version`
is the rendering of the version value. -/
def DownloadK0s {σ : Type} (x : Ext) (pf : PathFuncs) (h : OsHost σ)
    (version arch : String) (s : σ) : Option String × σ :=
  let t := TempFile h s
  match t.1.err with
  | some e => (some e, t.2)
  | none =>
    withDefer (DownloadK0s.body x pf h version arch t.1.output) (rmTemp h false t.1.output) t.2

/-- The part of `Linux.UpsertFile` that runs after the `defer` statement. -/
def UpsertFile.body {σ : Type} (h : OsHost σ) (path tmpf : String) (s : σ) : Option String × σ :=
  let r := h.exec ⟨"mv -n \"%s\" \"%s\"", [tmpf, path], true, none⟩ s
  match r.1.err with
  | some e => (some ("upsert failed: " ++ e), r.2)
  | none =>
    let r2 := h.exec ⟨"test -f \"%s\"", [tmpf], false, none⟩ r.2
    match r2.1.err with
    | none => (some "upsert failed", r2.2)
    | some _ => (none, r2.2)

/-- Go `Linux.UpsertFile`: creates a file in path with content only if the file
does not exist already. -/
def UpsertFile {σ : Type} (h : OsHost σ) (path content : String) (s : σ) : Option String × σ :=
  let t := TempFile h s
  match t.1.err with
  | some e => (some e, t.2)
  | none =>
    let w := h.exec ⟨"cat > \"%s\"", [t.1.output], true, some content⟩ t.2
    match w.1.err with
    | some e => (some e, w.2)
    | none => withDefer (UpsertFile.body h path t.1.output) (rmTemp h true t.1.output) w.2

/-! ### strconv.Atoi (64-bit `int`) -/

/-- The two errors of `strconv`: `ErrSyntax` and `ErrRange`. -/
inductive NumErr where
  | invalid
  | outOfRange
deriving DecidableEq, Repr

/-- The digit loop of `strconv.ParseUint` for base 10 and 64 bits: a character
that is no decimal digit is a syntax error, a value leaving `uint64` a range
error, whichever the scan meets first. -/
def parseUintLoop : List Char → Nat → Except NumErr Nat
  | [], n => .ok n
  | c :: cs, n =>
    if '0' ≤ c ∧ c ≤ '9' then
      if n ≥ (2 ^ 64 - 1) / 10 + 1 then .error .outOfRange
      else if n * 10 + (c.toNat - 48) ≥ 2 ^ 64 then .error .outOfRange
      else parseUintLoop cs (n * 10 + (c.toNat - 48))
    else .error .invalid

/-- Go `strconv.ParseInt(s, 10, 0)` on the characters of `s`: value and error kind. -/
def parseInt (cs : List Char) : Int × Option NumErr :=
  match cs with
  | [] => (0, some .invalid)
  | c :: rest =>
    let neg := c = '-'
    let ds := if c = '+' ∨ c = '-' then rest else cs
    if ds = [] then (0, some .invalid)
    else
      match parseUintLoop ds 0 with
      | .error .invalid => (0, some .invalid)
      | .error .outOfRange => (if neg then -(2 ^ 63) else 2 ^ 63 - 1, some .outOfRange)
      | .ok un =>
        if ¬ neg ∧ un ≥ 2 ^ 63 then (2 ^ 63 - 1, some .outOfRange)
        else if neg ∧ un > 2 ^ 63 then (-(2 ^ 63), some .outOfRange)
        else (if neg then -(un : Int) else (un : Int), none)

/-- The text of a `*strconv.NumError` raised by `Atoi`. -/
def numErrorText (x : Ext) (s : String) (e : NumErr) : String :=
  "strconv.Atoi: parsing " ++ x.strconvQuote s ++ ": " ++
    (match e with
     | .invalid => "invalid syntax"
     | .outOfRange => "value out of range")

/-- Go `strconv.Atoi`: its fast path agrees with `ParseInt(s, 10, 0)`. -/
def Atoi (x : Ext) (s : String) : Int × Option String :=
  match parseInt s.data with
  | (n, none) => (n, none)
  | (n, some e) => (n, some (numErrorText x s e))

/-- Go `Linux.HTTPStatus`: makes a HTTP GET request to the url and returns the
status code or an error. -/
def HTTPStatus {σ : Type} (x : Ext) (h : OsHost σ) (url : String) (s : σ) :
    (Int × Option String) × σ :=
  let r := h.exec
    (Cmd.plain (Sprintf "curl -kso /dev/null -w \"%%\x7bhttp_code\x7d\" \"%s\"" [url])) s
  match r.1.err with
  | some e => ((-1, some e), r.2)
  | none =>
    match Atoi x r.1.output with
    | (_, some e) => ((-1, some ("invalid response: " ++ e)), r.2)
    | (status, none) => ((status, none), r.2)

/-! ### Go string helpers used by `PrivateAddress` -/

/-- Go `unicode.IsSpace`. -/
def isSpace (c : Char) : Bool :=
  let n := c.toNat
  n = 0x09 || n = 0x0A || n = 0x0B || n = 0x0C || n = 0x0D || n = 0x20 || n = 0x85 ||
  n = 0xA0 || n = 0x1680 || (0x2000 ≤ n && n ≤ 0x200A) || n = 0x2028 || n = 0x2029 ||
  n = 0x202F || n = 0x205F || n = 0x3000

/-- Splitting around every occurrence of one separator character, as
`strings.Split` does for a one-character separator. -/
def splitChars (sep : Char) : List Char → List (List Char)
  | [] => [[]]
  | c :: cs =>
    if c = sep then [] :: splitChars sep cs
    else
      match splitChars sep cs with
      | [] => [[c]]
      | p :: ps => (c :: p) :: ps

/-- Go `strings.Split(s, sep)` for a one-character separator. -/
def Split (s : String) (sep : Char) : List String :=
  (splitChars sep s.data).map String.mk

/-- The scan of `strings.Fields`: `cur` holds the field being read, reversed. -/
def fieldsChars : List Char → List Char → List (List Char)
  | [], cur => if cur = [] then [] else [cur.reverse]
  | c :: cs, cur =>
    if isSpace c then
      if cur = [] then fieldsChars cs [] else cur.reverse :: fieldsChars cs []
    else fieldsChars cs (c :: cur)

/-- Go `strings.Fields`: the maximal runs of non-space characters. -/
def Fields (s : String) : List String :=
  (fieldsChars s.data []).map String.mk

/-- Position of the first `c` at or after offset `i`, or `-1`. -/
def indexFrom (c : Char) : List Char → Nat → Int
  | [], _ => -1
  | d :: ds, i => if d = c then (i : Int) else indexFrom c ds (i + 1)

/-- Go `strings.Index(s, sep)` for a one-character separator. -/
def Index (s : String) (sep : Char) : Int := indexFrom sep s.data 0

/-- The slice expression `s[:n]`. -/
def sliceTo (s : String) (n : Int) : String := String.mk (s.data.take n.toNat)

/-- The constant `sbinPath`. -/
def sbinPath : String := "PATH=/usr/local/sbin:/usr/sbin:/sbin:$PATH"

/-- The `for` loop of `Linux.PrivateAddress` over the lines of the output. -/
def PrivateAddress.loop (publicip : String) : List String → String × Option String
  | [] => ("", some "not found")
  | line :: rest =>
    let items := Fields line
    if items.length < 4 then PrivateAddress.loop publicip rest
    else
      let item := items.getD 3 ""
      let index := Index item '/'
      let addr := if index ≥ 0 then sliceTo item index else item
      if (Split addr '.').length = 4 then
        if publicip ≠ addr then (addr, none) else PrivateAddress.loop publicip rest
      else PrivateAddress.loop publicip rest

/-- Go `Linux.PrivateAddress`: resolves internal ip from private interface. -/
def PrivateAddress {σ : Type} (h : OsHost σ) (iface publicip : String) (s : σ) :
    (String × Option String) × σ :=
  let r := h.exec
    (Cmd.plain (Sprintf "%s ip -o addr show dev %s scope global" [sbinPath, iface])) s
  match r.1.err with
  | some _ =>
    (("", some ("failed to find private interface with name " ++ iface ++ ": " ++ r.1.output ++
      ". Make sure you've set correct 'privateInterface' for the host in config")), r.2)
  | none => (PrivateAddress.loop publicip (Split r.1.output '\n'), r.2)

/-! ### The version library -/

/-- The library `github.com/k0sproject/version` as far as the sources use it:
`NewVersion`, `Equal` and `String` over its version type `V`. -/
structure VersionLib (V : Type) where
  NewVersion : String → Except String V
  Equal : V → V → Bool
  render : V → String

/-- Go `Linux.K0sBinaryVersion`: runs `k0s version` and parses its output. -/
def K0sBinaryVersion {σ V : Type} (vl : VersionLib V) (pf : PathFuncs) (h : OsHost σ) (s : σ) :
    Except String V × σ :=
  let k0sVersionCmd := K0sCmdf pf "version" []
  let r := h.exec ⟨k0sVersionCmd, [], true, none⟩ s
  match r.1.err with
  | some e => (.error e, r.2)
  | none =>
    match vl.NewVersion r.1.output with
    | .error e => (.error e, r.2)
    | .ok version => (.ok version, r.2)

/-! ## A remote filesystem

A host whose state is a set of regular files. It interprets the five commands
`UpsertFile` issues; `temps` lists the names `mktemp` hands out next. -/

/-- The files of the remote host and the names `mktemp` will pick. -/
structure RemoteFS where
  files : String → Option String
  temps : List String

/-- The filesystem after writing `content` to `path`. -/
def RemoteFS.write (fs : RemoteFS) (path content : String) : RemoteFS :=
  ⟨fun q => if q = path then some content else fs.files q, fs.temps⟩

/-- The filesystem after removing `path`. -/
def RemoteFS.remove (fs : RemoteFS) (path : String) : RemoteFS :=
  ⟨fun q => if q = path then none else fs.files q, fs.temps⟩

/-- A command that ran and exited with status 0. -/
def exitOk (output : String) : ExecResult := ⟨output, none⟩

/-- A command that exited with a non-zero status. -/
def exitFail (code : String) : ExecResult := ⟨"", some ("command failed: exit status " ++ code)⟩

/-- The shell of the modelled host. `mktemp` creates an empty file under a name
not in use; `cat > f` stores its standard input in `f`; `mv -n a b` renames `a`
to `b` unless `b` exists, in which case nothing changes and the exit status is
non-zero exactly when `mvSkipFails` (the coreutils releases differ on this);
`test -f f` succeeds when `f` exists; `rm -f f` removes `f` and succeeds. -/
def fsExec (mvSkipFails : Bool) (c : Cmd) (fs : RemoteFS) : ExecResult × RemoteFS :=
  match c.format, c.args with
  | "mktemp", [] =>
    match fs.temps with
    | [] => (exitFail "1", fs)
    | t :: rest =>
      match fs.files t with
      | some _ => (exitFail "1", ⟨fs.files, rest⟩)
      | none => (exitOk t, RemoteFS.write ⟨fs.files, rest⟩ t "")
  | "cat > \"%s\"", [f] => (exitOk "", fs.write f (c.Stdin.getD ""))
  | "mv -n \"%s\" \"%s\"", [a, b] =>
    match fs.files a with
    | none => (exitFail "1", fs)
    | some content =>
      match fs.files b with
      | some _ => (if mvSkipFails then exitFail "1" else exitOk "", fs)
      | none => (exitOk "", (fs.remove a).write b content)
  | "test -f \"%s\"", [f] =>
    match fs.files f with
    | some _ => (exitOk "", fs)
    | none => (exitFail "1", fs)
  | "rm -f \"%s\"", [f] => (exitOk "", fs.remove f)
  | _, _ => (exitFail "127", fs)

/-- The modelled host as an execution collaborator. -/
def fsHost (mvSkipFails : Bool) : OsHost RemoteFS := ⟨fsExec mvSkipFails⟩

/-! ## A scripted host

Every command is logged; its result is the next entry of a script, so that each
combination of successes and failures is one script. -/

/-- The results still to be handed out and the commands received so far. -/
structure Script where
  pending : List ExecResult
  log : List Cmd
deriving DecidableEq, Repr

/-- The scripted host: a command past the end of the script succeeds. -/
def scriptHost : OsHost Script :=
  ⟨fun c st =>
    match st.pending with
    | [] => (⟨"", none⟩, ⟨[], st.log ++ [c]⟩)
    | r :: rest => (r, ⟨rest, st.log ++ [c]⟩)⟩

/-! ## The cluster data model -/

/-- The observed state of a host (`cluster.HostMetadata`). -/
structure HostMetadata where
  Hostname : String
  Arch : String
  K0sBinaryVersion : String
  NeedsUpgrade : Bool
deriving DecidableEq, Repr

/-- One deployment target (`cluster.Host`). -/
structure Host where
  UploadBinaryPath : String
  Reset : Bool
  Metadata : HostMetadata
deriving DecidableEq, Repr

/-- The k0s section of the cluster spec. -/
structure K0sSpec where
  Version : String
deriving DecidableEq, Repr

/-- The cluster spec: the hosts and the desired k0s. -/
structure ClusterSpec where
  Hosts : List Host
  K0s : K0sSpec
deriving DecidableEq, Repr

/-- The cluster configuration (`v1beta1.Cluster`). -/
structure Cluster where
  Spec : ClusterSpec
deriving DecidableEq, Repr

/-- The assignment `h.Metadata.K0sBinaryVersion = v`. -/
def Host.setK0sBinaryVersion (h : Host) (v : String) : Host :=
  ⟨h.UploadBinaryPath, h.Reset, ⟨h.Metadata.Hostname, h.Metadata.Arch, v, h.Metadata.NeedsUpgrade⟩⟩

/-- Modelled from the spec: `cluster.Hosts.Filter`, which is not among the
sources. `Prepare` "keeps hosts where" the predicate holds; the order of the
list is kept. -/
def Hosts.Filter (hosts : List Host) (filter : Host → Bool) : List Host :=
  hosts.filter filter

/-! ## phase/upload_binaries.go -/

/-- The phase `UploadBinaries`: the config of `GenericPhase` and its hosts. -/
structure UploadBinaries where
  Config : Cluster
  hosts : List Host
deriving DecidableEq, Repr

/-- Go `UploadBinaries.Prepare`: the error returned and the phase afterwards. -/
def UploadBinaries.Prepare (p : UploadBinaries) (config : Cluster) :
    Option String × UploadBinaries :=
  let p1 : UploadBinaries := ⟨config, p.hosts⟩
  let p2 : UploadBinaries := ⟨p1.Config, Hosts.Filter p1.Config.Spec.Hosts (fun h =>
    if h.UploadBinaryPath = "" then false
    else if h.Reset then false
    else if h.Metadata.NeedsUpgrade then false
    else if h.Metadata.K0sBinaryVersion = p1.Config.Spec.K0s.Version then false
    else true)⟩
  (none, p2)

/-- Go `UploadBinaries.ShouldRun`: true when there are hosts that need binary
uploading. -/
def UploadBinaries.ShouldRun (p : UploadBinaries) : Bool :=
  decide (p.hosts.length > 0)

/-- The collaborators of `uploadBinary` for one host: its connection, the local
`os.Stat` (modification time or error), `Host.FileChanged`, `Host.Upload`, the
file helpers of the configurer (all called with `exec.Sudo`) and
`filepath.Dir`. -/
structure Collab (σ : Type) where
  conn : OsHost σ
  Stat : String → σ → (Nat × Option String) × σ
  FileChanged : String → String → σ → Bool × σ
  FileExist : String → σ → Bool × σ
  MkDir : String → σ → Option String × σ
  Chmod : String → String → σ → Option String × σ
  Touch : String → Nat → σ → Option String × σ
  Upload : String → String → σ → Option String × σ
  filepathDir : String → String

/-- Go `UploadBinaries.ensureBinPath`. -/
def UploadBinaries.ensureBinPath {σ : Type} (c : Collab σ) (pf : PathFuncs) (s : σ) :
    Option String × σ :=
  let dir := c.filepathDir pf.K0sBinaryPath
  match c.FileExist dir s with
  | (true, s1) => (none, s1)
  | (false, s1) =>
    match c.MkDir dir s1 with
    | (some e, s2) => (some ("failed to create " ++ dir ++ ": " ++ e), s2)
    | (none, s2) =>
      match c.Chmod dir "0755" s2 with
      | (some e, s3) => (some ("failed to chmod " ++ dir ++ ": " ++ e), s3)
      | (none, s3) => (none, s3)

/-- The first half of `UploadBinaries.uploadBinary`: the transfer, when the
file has changed. -/
def UploadBinaries.transfer {σ : Type} (c : Collab σ) (pf : PathFuncs) (h : Host) (s : σ) :
    Option String × σ :=
  match c.FileChanged h.UploadBinaryPath pf.K0sBinaryPath s with
  | (true, s1) =>
    match UploadBinaries.ensureBinPath c pf s1 with
    | (some e, s2) => (some e, s2)
    | (none, s2) => c.Upload h.UploadBinaryPath pf.K0sBinaryPath s2
  | (false, s1) => (none, s1)

/-- Go `UploadBinaries.uploadBinary`: the error returned, the host afterwards and
the world afterwards. -/
def UploadBinaries.uploadBinary {σ V : Type} (vl : VersionLib V) (c : Collab σ) (pf : PathFuncs)
    (p : UploadBinaries) (h : Host) (s : σ) : (Option String × Host) × σ :=
  match c.Stat h.UploadBinaryPath s with
  | ((_, some e), s1) => ((some ("failed to stat " ++ h.UploadBinaryPath ++ ": " ++ e), h), s1)
  | ((modTime, none), s1) =>
    match UploadBinaries.transfer c pf h s1 with
    | (some e, s2) => ((some e, h), s2)
    | (none, s2) =>
      match c.Chmod pf.K0sBinaryPath "0700" s2 with
      | (some e, s3) => ((some e, h), s3)
      | (none, s3) =>
        match c.Touch pf.K0sBinaryPath modTime s3 with
        | (some e, s4) => ((some ("failed to touch " ++ pf.K0sBinaryPath ++ ": " ++ e), h), s4)
        | (none, s4) =>
          match K0sBinaryVersion vl pf c.conn s4 with
          | (.error e, s5) =>
            ((some ("failed to get uploaded k0s binary version: " ++ e), h), s5)
          | (.ok uploadedVersion, s5) =>
            let h1 := h.setK0sBinaryVersion (vl.render uploadedVersion)
            match vl.NewVersion p.Config.Spec.K0s.Version with
            | .ok version =>
              if ¬ vl.Equal version uploadedVersion then
                ((some ("uploaded k0s binary version is " ++ vl.render uploadedVersion ++
                  " not " ++ vl.render version), h1), s5)
              else ((none, h1), s5)
            | .error _ => ((none, h1), s5)

/-! ## The dispatcher -/

/-- Modelled from the spec: one host's chain in `GenericPhase.parallelDo`, which
is not among the sources. The functions run "strictly in the given order" and
the chain stops "at the first failing function". -/
def runChain {σ : Type} (funcs : List (Host → σ → Option String × σ)) (h : Host) (s : σ) :
    Option String × σ :=
  match funcs with
  | [] => (none, s)
  | f :: fs =>
    match f h s with
    | (some e, s1) => (some e, s1)
    | (none, s1) => runChain fs h s1

/-- Modelled from the spec: the dispatcher `GenericPhase.parallelDo`, which is
not among the sources. Every host runs its chain and "all host outcomes are
collected": the result lists each failing host with its cause. A host task
works on its own host only, so the chains are run one after the other, in the
order of the list. -/
def parallelDo {σ : Type} (hosts : List Host) (funcs : List (Host → σ → Option String × σ))
    (s : σ) : List (Host × String) × σ :=
  match hosts with
  | [] => ([], s)
  | h :: rest =>
    let r := runChain funcs h s
    let rs := parallelDo rest funcs r.2
    match r.1 with
    | some e => ((h, e) :: rs.1, rs.2)
    | none => rs

/-- Modelled from the spec: the dispatcher "returns `nil` only if every host's
full chain succeeded, otherwise an aggregate error naming every failing host and
its specific cause". -/
def aggregate (failures : List (Host × String)) : Option (List (Host × String)) :=
  if failures = [] then none else some failures

/-! ## phase/validate_hosts.go -/

/-- The phase `ValidateHosts`: the config of `GenericPhase` and the table of
hostname counts (a Go map: a missing key reads as 0). -/
structure ValidateHosts where
  Config : Cluster
  hncount : String → Nat

/-- The counting loop of `ValidateHosts.Run`, starting from table `m`. -/
def countHostnames (m : String → Nat) : List Host → String → Nat
  | [] => m
  | h :: rest =>
    countHostnames (fun k => if k = h.Metadata.Hostname then m k + 1 else m k) rest

/-- Go `ValidateHosts.validateUniqueHostname`. -/
def ValidateHosts.validateUniqueHostname (p : ValidateHosts) (h : Host) : Option String :=
  if p.hncount h.Metadata.Hostname > 1 then
    some ("hostname is not unique: " ++ h.Metadata.Hostname)
  else none

/-- Go `ValidateHosts.validateSudo`; `checkPrivilege` is the configurer's
`CheckPrivilege` on the host. -/
def ValidateHosts.validateSudo {σ : Type} (checkPrivilege : Host → σ → Option String × σ)
    (h : Host) (s : σ) : Option String × σ :=
  match checkPrivilege h s with
  | (some e, s1) => (some e, s1)
  | (none, s1) => (none, s1)

/-- The two functions `ValidateHosts.Run` hands to the dispatcher. -/
def ValidateHosts.checks {σ : Type} (checkPrivilege : Host → σ → Option String × σ)
    (p : ValidateHosts) : List (Host → σ → Option String × σ) :=
  [fun h s => (p.validateUniqueHostname h, s), ValidateHosts.validateSudo checkPrivilege]

/-- Go `ValidateHosts.Run`: the aggregate error, the phase afterwards and the world
afterwards. -/
def ValidateHosts.Run {σ : Type} (checkPrivilege : Host → σ → Option String × σ)
    (p : ValidateHosts) (s : σ) : (Option (List (Host × String)) × ValidateHosts) × σ :=
  let p1 : ValidateHosts := ⟨p.Config, countHostnames (fun _ => 0) p.Config.Spec.Hosts⟩
  let r := parallelDo p1.Config.Spec.Hosts (ValidateHosts.checks checkPrivilege p1) s
  ((aggregate r.1, p1), r.2)

/-! ## Reference definitions and concrete collaborators -/

/-- The address a line of the listing offers in the amended C6: the fourth
whitespace-separated field, cut before a `/`, when it has exactly four
dot-separated parts (three dots). What the parts hold is not examined. -/
def lineAddress (line : String) : Option String :=
  match (Fields line).get? 3 with
  | none => none
  | some tok =>
    let addr := String.mk (tok.data.takeWhile (fun c => decide (c ≠ '/')))
    if addr.data.count '.' = 3 then some addr else none

/-- The addresses of a listing, in listing order. -/
def listedAddresses (listing : String) : List String :=
  (Split listing '\n').filterMap lineAddress

/-- One decimal octet: one to three decimal digits with a value up to 255. -/
def isOctet (cs : List Char) : Bool :=
  decide (cs ≠ [] ∧ cs.length ≤ 3 ∧ (∀ c ∈ cs, '0' ≤ c ∧ c ≤ '9')) &&
    decide (cs.foldl (fun a c => a * 10 + (c.toNat - 48)) 0 ≤ 255)

/-- A well-formed address in the plain sense of the specification: dotted
decimal, four octets. Every other token is malformed. -/
def wellFormedAddress (s : String) : Bool :=
  match splitChars '.' s.data with
  | [a, b, c, d] => isOctet a && isOctet b && isOctet c && isOctet d
  | _ => false

/-- The address a line of the listing offers as C6 words it: the fourth
whitespace-separated field, cut before a `/`, unless it is malformed. -/
def lineWellFormedAddress (line : String) : Option String :=
  match (Fields line).get? 3 with
  | none => none
  | some tok =>
    let addr := String.mk (tok.data.takeWhile (fun c => decide (c ≠ '/')))
    if wellFormedAddress addr then some addr else none

/-- The result C6 promises: the first well-formed address of the listing that
differs from the public address. -/
def firstWellFormedAddress (listing publicip : String) : Option String :=
  ((Split listing '\n').filterMap lineWellFormedAddress).find? (fun a => decide (a ≠ publicip))

/-- The outcome of host validation in the amended C8, host by host in list
order: a host whose hostname occurs more than once contributes its uniqueness
failure and the privilege check is not consulted; any other host contributes
the failure of its privilege check, if it fails. The result holds the failures
and the world afterwards. -/
def validationOutcome {σ : Type} (checkPrivilege : Host → σ → Option String × σ)
    (count : String → Nat) : List Host → σ → List (Host × String) × σ
  | [], s => ([], s)
  | h :: rest, s =>
    if count h.Metadata.Hostname > 1 then
      ((h, "hostname is not unique: " ++ h.Metadata.Hostname) ::
        (validationOutcome checkPrivilege count rest s).1,
        (validationOutcome checkPrivilege count rest s).2)
    else
      match checkPrivilege h s with
      | (some e, s1) =>
        ((h, e) :: (validationOutcome checkPrivilege count rest s1).1,
          (validationOutcome checkPrivilege count rest s1).2)
      | (none, s1) => validationOutcome checkPrivilege count rest s1

/-- A privilege check that also records, in order, the hosts it is invoked on. -/
def logPrivilege {σ : Type} (checkPrivilege : Host → σ → Option String × σ) :
    Host → σ × List Host → Option String × (σ × List Host) :=
  fun h st => ((checkPrivilege h st.1).1, ((checkPrivilege h st.1).2, st.2 ++ [h]))

/-- The value of a run of decimal digits read after the value `n`. -/
def digitsValue (n : Nat) (ds : List Char) : Nat :=
  ds.foldl (fun a c => a * 10 + (c.toNat - 48)) n

/-- The integer a text denotes when it is an optional sign followed by one or
more decimal digits and the value lies in the range of a 64-bit `int`. -/
def decimalInt (s : String) : Option Int :=
  let neg := s.data.head? = some '-'
  let ds := if s.data.head? = some '+' ∨ s.data.head? = some '-' then s.data.tail else s.data
  if ds ≠ [] ∧ ∀ c ∈ ds, '0' ≤ c ∧ c ≤ '9' then
    let v : Int := if neg then -(digitsValue 0 ds : Int) else (digitsValue 0 ds : Int)
    if -(2 ^ 63) ≤ v ∧ v < 2 ^ 63 then some v else none
  else none

/-- A status code as HTTP defines it: three decimal digits, the first of them
from 1 to 5. -/
def validStatusCode (s : String) : Bool :=
  match s.data with
  | [a, b, c] =>
    decide ('1' ≤ a ∧ a ≤ '5') && decide ('0' ≤ b ∧ b ≤ '9') && decide ('0' ≤ c ∧ c ≤ '9')
  | _ => false

/-- Library functions for concrete runs: no shell quoting is needed for plain
words, `path.Dir` of the k0s binary path, Go quoting of a plain text. -/
def plainExt : Ext := ⟨id, fun _ => "/usr/local/bin", fun s => "\"" ++ s ++ "\""⟩

/-- A host on which every command succeeds with the same output. -/
def constHost (output : String) : OsHost Unit := ⟨fun _ s => (⟨output, none⟩, s)⟩

/-- A host on which every command fails with the same error. -/
def failHost (err : String) : OsHost Unit := ⟨fun _ s => (⟨"", some err⟩, s)⟩

/-- Reading a run of decimal digits as a number; `none` when the run is empty
or holds another character. -/
def readNumber (cs : List Char) : Option Nat :=
  if cs ≠ [] ∧ ∀ c ∈ cs, '0' ≤ c ∧ c ≤ '9' then some (digitsValue 0 cs) else none

/-- A stand-in for the version library on plain versions `v1.29.2`: an optional
`v` and dot-separated numbers; two versions are equal when their numbers are. -/
def plainVersions : VersionLib (List Nat) :=
  ⟨fun s =>
    let body := match s.data with
      | 'v' :: rest => rest
      | cs => cs
    match (splitChars '.' body).mapM readNumber with
    | some ns => .ok ns
    | none => .error ("Malformed version: " ++ s),
   fun a b => decide (a = b),
   fun v => "v" ++ ".".intercalate (v.map Nat.repr)⟩

/-- Collaborators for one host on which every step succeeds, the binary is
found unchanged and `k0s version` prints `installed`. -/
def quietCollab (installed : String) : Collab Unit :=
  ⟨constHost installed,
   fun _ s => ((0, none), s),
   fun _ _ s => (false, s),
   fun _ s => (true, s),
   fun _ s => (none, s),
   fun _ _ s => (none, s),
   fun _ _ s => (none, s),
   fun _ _ s => (none, s),
   fun _ => "/usr/local/bin"⟩

/-- A host record with a hostname, an upload path and a recorded version. -/
def mkHost (hostname uploadPath recorded : String) : Host :=
  ⟨uploadPath, false, ⟨hostname, "amd64", recorded, false⟩⟩

/-- A cluster with the given hosts and desired version. -/
def mkCluster (hosts : List Host) (version : String) : Cluster := ⟨⟨hosts, ⟨version⟩⟩⟩

/-- A privilege check that fails on every host and counts its invocations. -/
def denyPrivilege : Host → Nat → Option String × Nat :=
  fun _ n => (some "sudo: a password is required", n + 1)

end K0sctl

/-! ## Theorems -/

namespace K0sctl

/-- C1: architecture normalization is exact. When `uname -m` succeeds with
output `s`, `Arch` returns amd64 for x86_64, arm64 for aarch64, arm for the six
32-bit ARM names and `s` itself for every other string, with no error; when the
command fails, `Arch` returns the empty string and that error. -/
theorem Arch_exact {σ : Type} (h : OsHost σ) (s s1 : σ) (r : ExecResult)
    (hr : h.exec (Cmd.plain "uname -m") s = (r, s1)) :
    (∀ e, r.err = some e → Arch h s = (("", some e), s1)) ∧
    (r.err = none →
      (r.output = "x86_64" → Arch h s = (("amd64", none), s1)) ∧
      (r.output = "aarch64" → Arch h s = (("arm64", none), s1)) ∧
      (r.output ∈ ["armv7l", "armv8l", "aarch32", "arm32", "armhfp", "arm-32"] →
        Arch h s = (("arm", none), s1)) ∧
      (r.output ∉ ["x86_64", "aarch64", "armv7l", "armv8l", "aarch32", "arm32", "armhfp",
          "arm-32"] → Arch h s = ((r.output, none), s1))) := by
  refine ⟨fun e he => ?_, fun hn => ⟨fun ho => ?_, fun ho => ?_, fun ho => ?_, fun ho => ?_⟩⟩
  · simp [Arch, hr, he]
  · simp [Arch, hr, hn, ho]
  · simp [Arch, hr, hn, ho]
  · simp only [List.mem_cons, List.mem_singleton, List.not_mem_nil, or_false] at ho
    rcases ho with ho | ho | ho | ho | ho | ho <;> simp [Arch, hr, hn, ho]
  · simp only [List.mem_cons, List.mem_singleton, List.not_mem_nil, or_false, not_or] at ho
    obtain ⟨h1, h2, h3, h4, h5, h6, h7, h8⟩ := ho
    simp only [Arch, hr, hn]

/-- Witness of `Arch_exact`: on a host whose `uname -m` prints riscv64 the
result is riscv64, and x86_64 gives amd64. -/
theorem Arch_exact_witness :
    Arch (constHost "riscv64") () = (("riscv64", none), ()) ∧
    Arch (constHost "x86_64") () = (("amd64", none), ()) :=
  ⟨((Arch_exact (constHost "riscv64") () () ⟨"riscv64", none⟩ rfl).2 rfl).2.2.2 (by decide),
   ((Arch_exact (constHost "x86_64") () () ⟨"x86_64", none⟩ rfl).2 rfl).1 rfl⟩

/-- C2: upload-phase filtering. `Prepare` returns no error; afterwards a host is
among the hosts of the phase exactly when it is a host of the spec with a
non-empty upload path, not flagged for reset, not flagged `NeedsUpgrade`, and
with a recorded binary version different from the desired one; `ShouldRun` is
true exactly when some host of the spec meets the four conditions. -/
theorem Prepare_filters (p : UploadBinaries) (config : Cluster) :
    (p.Prepare config).1 = none ∧
    (∀ h : Host, h ∈ (p.Prepare config).2.hosts ↔
      h ∈ config.Spec.Hosts ∧ h.UploadBinaryPath ≠ "" ∧ h.Reset = false ∧
        h.Metadata.NeedsUpgrade = false ∧
        h.Metadata.K0sBinaryVersion ≠ config.Spec.K0s.Version) ∧
    ((p.Prepare config).2.ShouldRun = true ↔
      ∃ h : Host, h ∈ config.Spec.Hosts ∧ h.UploadBinaryPath ≠ "" ∧ h.Reset = false ∧
        h.Metadata.NeedsUpgrade = false ∧
        h.Metadata.K0sBinaryVersion ≠ config.Spec.K0s.Version) := by
  have hmem : ∀ h : Host, h ∈ (p.Prepare config).2.hosts ↔
      h ∈ config.Spec.Hosts ∧ h.UploadBinaryPath ≠ "" ∧ h.Reset = false ∧
        h.Metadata.NeedsUpgrade = false ∧
        h.Metadata.K0sBinaryVersion ≠ config.Spec.K0s.Version := by
    intro h
    simp only [UploadBinaries.Prepare, Hosts.Filter, List.mem_filter]
    by_cases h1 : h.UploadBinaryPath = "" <;> by_cases h2 : h.Reset = true <;>
      by_cases h3 : h.Metadata.NeedsUpgrade = true <;>
      by_cases h4 : h.Metadata.K0sBinaryVersion = config.Spec.K0s.Version <;>
      simp [h1, h2, h3, h4]
  refine ⟨rfl, hmem, ?_⟩
  have hlen : (p.Prepare config).2.ShouldRun = true ↔ ∃ h, h ∈ (p.Prepare config).2.hosts := by
    simp only [UploadBinaries.ShouldRun, decide_eq_true_eq, gt_iff_lt, List.length_pos]
    exact ⟨fun hne => List.exists_mem_of_ne_nil _ hne, fun ⟨h, hh⟩ => List.ne_nil_of_mem hh⟩
  rw [hlen]
  exact ⟨fun ⟨h, hh⟩ => ⟨h, (hmem h).1 hh⟩, fun ⟨h, hh⟩ => ⟨h, (hmem h).2 hh⟩⟩


theorem filter_len_pos_iff {α β : Type} [DecidableEq β] (f : α → β) (b : β) (l : List α) :
    0 < (l.filter (fun x => decide (f x = b))).length ↔
      ∃ j, ∃ hj : j < l.length, f (l.get ⟨j, hj⟩) = b := by
  rw [List.length_pos]
  constructor
  · intro hne
    obtain ⟨x, hx⟩ := List.exists_mem_of_ne_nil _ hne
    rw [List.mem_filter] at hx
    obtain ⟨k, hk, rfl⟩ := List.getElem_of_mem hx.1
    exact ⟨k, hk, by simpa using hx.2⟩
  · rintro ⟨j, hj, hb⟩
    exact List.ne_nil_of_mem (List.mem_filter.2 ⟨List.get_mem l j hj, by simpa using hb⟩)

theorem filter_len_gt_one_iff {α β : Type} [DecidableEq β] (f : α → β) (b : β) :
    ∀ (l : List α) (i : Nat) (hi : i < l.length), f (l.get ⟨i, hi⟩) = b →
      (1 < (l.filter (fun x => decide (f x = b))).length ↔
        ∃ j, ∃ hj : j < l.length, j ≠ i ∧ f (l.get ⟨j, hj⟩) = b) := by
  intro l
  induction l with
  | nil => intro i hi; simp at hi
  | cons x xs ih =>
    intro i hi hb
    cases i with
    | zero =>
      have hx : f x = b := by simpa using hb
      rw [List.filter_cons_of_pos (by simpa using hx), List.length_cons,
        Nat.lt_add_left_iff_pos, filter_len_pos_iff]
      constructor
      · rintro ⟨j, hj, h⟩
        exact ⟨j + 1, by simpa using hj, by simp, by simpa using h⟩
      · rintro ⟨j, hj, hne, h⟩
        cases j with
        | zero => exact absurd rfl hne
        | succ k => exact ⟨k, by simpa using hj, by simpa using h⟩
    | succ i' =>
      have hi' : i' < xs.length := by simpa using hi
      have hb' : f (xs.get ⟨i', hi'⟩) = b := by simpa using hb
      by_cases hx : f x = b
      · rw [List.filter_cons_of_pos (by simpa using hx), List.length_cons]
        have hpos := (filter_len_pos_iff f b xs).2 ⟨i', hi', hb'⟩
        constructor
        · intro _
          exact ⟨0, by simp, by simp, by simpa using hx⟩
        · intro _
          omega
      · rw [List.filter_cons_of_neg (by simpa using hx), ih i' hi' hb']
        constructor
        · rintro ⟨j, hj, hne, h⟩
          exact ⟨j + 1, by simpa using hj, by simpa using hne, by simpa using h⟩
        · rintro ⟨j, hj, hne, h⟩
          cases j with
          | zero => exact absurd (by simpa using h) hx
          | succ k => exact ⟨k, by simpa using hj, by simpa using hne, by simpa using h⟩

theorem countHostnames_eq (hosts : List Host) :
    ∀ (m : String → Nat) (name : String), countHostnames m hosts name =
      m name + (hosts.filter (fun h => decide (h.Metadata.Hostname = name))).length := by
  induction hosts with
  | nil => intro m name; simp [countHostnames]
  | cons x xs ih =>
    intro m name
    rw [countHostnames, ih]
    by_cases hx : x.Metadata.Hostname = name
    · rw [List.filter_cons_of_pos (by simpa using hx)]
      simp [hx]
      omega
    · rw [List.filter_cons_of_neg (by simpa using hx)]
      have : ¬ name = x.Metadata.Hostname := fun h => hx h.symm
      simp [this]

/-- C7: hostname uniqueness check. After `ValidateHosts.Run` has built its
table, the count stored for a hostname is the number of hosts of the list with
that hostname, and `validateUniqueHostname` fails for a host of the list exactly
when another host of the list has the same hostname. -/
theorem hostname_uniqueness {σ : Type} (checkPrivilege : Host → σ → Option String × σ)
    (p : ValidateHosts) (s : σ) :
    (∀ name : String, (ValidateHosts.Run checkPrivilege p s).1.2.hncount name =
      (p.Config.Spec.Hosts.filter (fun h => decide (h.Metadata.Hostname = name))).length) ∧
    (∀ i : Fin p.Config.Spec.Hosts.length,
      (ValidateHosts.Run checkPrivilege p s).1.2.validateUniqueHostname
          (p.Config.Spec.Hosts.get i) ≠ none ↔
        ∃ j : Fin p.Config.Spec.Hosts.length, j ≠ i ∧
          (p.Config.Spec.Hosts.get j).Metadata.Hostname =
            (p.Config.Spec.Hosts.get i).Metadata.Hostname) := by
  have hcount : ∀ name : String, (ValidateHosts.Run checkPrivilege p s).1.2.hncount name =
      (p.Config.Spec.Hosts.filter (fun h => decide (h.Metadata.Hostname = name))).length := by
    intro name
    simp [ValidateHosts.Run, countHostnames_eq]
  refine ⟨hcount, fun i => ?_⟩
  have key := filter_len_gt_one_iff (fun h : Host => h.Metadata.Hostname)
    (p.Config.Spec.Hosts.get i).Metadata.Hostname p.Config.Spec.Hosts i.1 i.2 rfl
  have hfail : (ValidateHosts.Run checkPrivilege p s).1.2.validateUniqueHostname
        (p.Config.Spec.Hosts.get i) ≠ none ↔
      1 < (ValidateHosts.Run checkPrivilege p s).1.2.hncount
        (p.Config.Spec.Hosts.get i).Metadata.Hostname := by
    unfold ValidateHosts.validateUniqueHostname
    split <;> simp_all
  rw [hfail, hcount, key]
  constructor
  · rintro ⟨j, hj, hne, h⟩
    exact ⟨⟨j, hj⟩, fun hji => hne (congrArg Fin.val hji), h⟩
  · rintro ⟨j, hne, h⟩
    exact ⟨j.1, j.2, fun hji => hne (Fin.ext hji), h⟩

/-- Two hosts named node1 and one named node2: both node1 hosts fail the
uniqueness check, the node2 host passes it. -/
theorem hostname_uniqueness_witness :
    (ValidateHosts.Run denyPrivilege
        ⟨mkCluster [mkHost "node1" "" "", mkHost "node1" "" "", mkHost "node2" "" ""] "v1.29.2",
          fun _ => 0⟩ 0).1.2.validateUniqueHostname (mkHost "node1" "" "") ≠ none ∧
    ¬ (ValidateHosts.Run denyPrivilege
        ⟨mkCluster [mkHost "node1" "" "", mkHost "node1" "" "", mkHost "node2" "" ""] "v1.29.2",
          fun _ => 0⟩ 0).1.2.validateUniqueHostname (mkHost "node2" "" "") ≠ none :=
  ⟨((hostname_uniqueness denyPrivilege
      ⟨mkCluster [mkHost "node1" "" "", mkHost "node1" "" "", mkHost "node2" "" ""] "v1.29.2",
        fun _ => 0⟩ 0).2 ⟨0, by decide⟩).2 ⟨⟨1, by decide⟩, by decide, rfl⟩,
   fun hf => by
    obtain ⟨j, hne, hj⟩ := ((hostname_uniqueness denyPrivilege
      ⟨mkCluster [mkHost "node1" "" "", mkHost "node1" "" "", mkHost "node2" "" ""] "v1.29.2",
        fun _ => 0⟩ 0).2 ⟨2, by decide⟩).1 hf
    revert hne hj
    revert j
    decide⟩

/-- C8, as stated, fails: with two hosts named node1 and a privilege check that
fails on every host, `Run` never invokes the privilege check (the counter stays
at 0) and the aggregate error holds one failure for each host, the uniqueness
failure, and no privilege failure. -/
theorem validation_independence_counterexample :
    (ValidateHosts.Run denyPrivilege
      ⟨mkCluster [mkHost "node1" "" "", mkHost "node1" "" ""] "v1.29.2", fun _ => 0⟩ 0).2 = 0 ∧
    (ValidateHosts.Run denyPrivilege
      ⟨mkCluster [mkHost "node1" "" "", mkHost "node1" "" ""] "v1.29.2", fun _ => 0⟩ 0).1.1 =
      some [(mkHost "node1" "" "", "hostname is not unique: node1"),
            (mkHost "node1" "" "", "hostname is not unique: node1")] ∧
    (denyPrivilege (mkHost "node1" "" "") 0).1 ≠ none := by
  decide

theorem runChain_checks {σ : Type} (checkPrivilege : Host → σ → Option String × σ)
    (q : ValidateHosts) (h : Host) (s : σ) :
    runChain (ValidateHosts.checks checkPrivilege q) h s =
      if q.hncount h.Metadata.Hostname > 1 then
        (some ("hostname is not unique: " ++ h.Metadata.Hostname), s)
      else checkPrivilege h s := by
  simp only [ValidateHosts.checks, runChain, ValidateHosts.validateUniqueHostname,
    ValidateHosts.validateSudo]
  by_cases hd : q.hncount h.Metadata.Hostname > 1
  · simp [hd]
  · simp only [hd, if_false]
    rcases hc : checkPrivilege h s with ⟨_ | e, s1⟩ <;> rfl

theorem parallelDo_checks {σ : Type} (checkPrivilege : Host → σ → Option String × σ)
    (q : ValidateHosts) (hosts : List Host) :
    ∀ s : σ, parallelDo hosts (ValidateHosts.checks checkPrivilege q) s =
      validationOutcome checkPrivilege q.hncount hosts s := by
  induction hosts with
  | nil => intro s; rfl
  | cons h rest ih =>
    intro s
    simp only [parallelDo, runChain_checks, validationOutcome]
    by_cases hd : q.hncount h.Metadata.Hostname > 1
    · simp only [hd, if_true, ih]
    · simp only [hd, if_false]
      rcases hc : checkPrivilege h s with ⟨_ | e, s1⟩
      · simp only [ih]
      · simp only [ih]

theorem validationOutcome_log {σ : Type} (checkPrivilege : Host → σ → Option String × σ)
    (count : String → Nat) (hosts : List Host) :
    ∀ st : σ × List Host,
      (validationOutcome (logPrivilege checkPrivilege) count hosts st).2.2 =
        st.2 ++ hosts.filter (fun h => decide (count h.Metadata.Hostname ≤ 1)) := by
  induction hosts with
  | nil => intro st; simp [validationOutcome]
  | cons h rest ih =>
    intro st
    by_cases hd : count h.Metadata.Hostname > 1
    · have hle : ¬ count h.Metadata.Hostname ≤ 1 := by omega
      rw [validationOutcome, if_pos hd, List.filter_cons_of_neg (by simpa using hle)]
      exact ih st
    · have hle : count h.Metadata.Hostname ≤ 1 := by omega
      rw [validationOutcome, if_neg hd, List.filter_cons_of_pos (by simpa using hle)]
      rcases hc : checkPrivilege h st.1 with ⟨_ | e, s1⟩ <;>
        simp [logPrivilege, hc, ih]

theorem validationOutcome_mem {σ : Type} (checkPrivilege : Host → σ → Option String × σ)
    (count : String → Nat) (hosts : List Host) :
    ∀ s : σ,
      (∀ h ∈ hosts, count h.Metadata.Hostname > 1 →
        (h, "hostname is not unique: " ++ h.Metadata.Hostname) ∈
          (validationOutcome checkPrivilege count hosts s).1) ∧
      (∀ h e, (h, e) ∈ (validationOutcome checkPrivilege count hosts s).1 →
        h ∈ hosts ∧ (count h.Metadata.Hostname > 1 →
          e = "hostname is not unique: " ++ h.Metadata.Hostname)) := by
  induction hosts with
  | nil => intro s; simp [validationOutcome]
  | cons x rest ih =>
    intro s
    by_cases hd : count x.Metadata.Hostname > 1
    · rw [validationOutcome, if_pos hd]
      obtain ⟨ih1, ih2⟩ := ih s
      refine ⟨fun h hh hc => ?_, fun h e he => ?_⟩
      · rcases List.mem_cons.1 hh with rfl | hh
        · exact List.mem_cons_self _ _
        · exact List.mem_cons_of_mem _ (ih1 h hh hc)
      · rcases List.mem_cons.1 he with heq | he
        · obtain ⟨rfl, rfl⟩ := Prod.mk.inj heq
          exact ⟨List.mem_cons_self _ _, fun _ => rfl⟩
        · exact ⟨List.mem_cons_of_mem _ (ih2 h e he).1, (ih2 h e he).2⟩
    · rw [validationOutcome, if_neg hd]
      rcases hc : checkPrivilege x s with ⟨_ | e1, s1⟩
      · obtain ⟨ih1, ih2⟩ := ih s1
        refine ⟨fun h hh hcnt => ?_, fun h e he => ?_⟩
        · rcases List.mem_cons.1 hh with rfl | hh
          · exact absurd hcnt hd
          · exact ih1 h hh hcnt
        · exact ⟨List.mem_cons_of_mem _ (ih2 h e he).1, (ih2 h e he).2⟩
      · obtain ⟨ih1, ih2⟩ := ih s1
        refine ⟨fun h hh hcnt => ?_, fun h e he => ?_⟩
        · rcases List.mem_cons.1 hh with rfl | hh
          · exact absurd hcnt hd
          · exact List.mem_cons_of_mem _ (ih1 h hh hcnt)
        · rcases List.mem_cons.1 he with heq | he
          · obtain ⟨rfl, rfl⟩ := Prod.mk.inj heq
            exact ⟨List.mem_cons_self _ _, fun hcnt => absurd hcnt hd⟩
          · exact ⟨List.mem_cons_of_mem _ (ih2 h e he).1, (ih2 h e he).2⟩

theorem hncount_after_Run {σ : Type} (checkPrivilege : Host → σ → Option String × σ)
    (p : ValidateHosts) (s : σ) :
    (ValidateHosts.Run checkPrivilege p s).1.2.hncount =
      fun name =>
        (p.Config.Spec.Hosts.filter (fun g => decide (g.Metadata.Hostname = name))).length := by
  funext name
  simp [ValidateHosts.Run, countHostnames_eq]

/-- C8, amended: the two checks form one chain per host, run in list order.
(1) In a host's chain the uniqueness check comes first; when it fails, the
host's outcome is that failure alone and the privilege check is not invoked
(the world is unchanged); when it passes, the host's outcome is the outcome of
the privilege check. (2) The failures `Run` collects and the world it leaves
are those of `validationOutcome` over the hosts of the spec, and the aggregate
error is nil exactly when there is no failure. (3) The privilege check is
invoked exactly on the hosts whose hostname is not duplicated, once each, in
list order. (4) Every host with a duplicated hostname is reported with its
uniqueness failure and with no other failure. -/
theorem validation_chain_short_circuits {σ : Type}
    (checkPrivilege : Host → σ → Option String × σ) (p : ValidateHosts) :
    (∀ (h : Host) (s : σ), runChain (ValidateHosts.checks checkPrivilege p) h s =
      if p.hncount h.Metadata.Hostname > 1 then
        (some ("hostname is not unique: " ++ h.Metadata.Hostname), s)
      else checkPrivilege h s) ∧
    (∀ s : σ,
      (ValidateHosts.Run checkPrivilege p s).1.1 =
        (match (validationOutcome checkPrivilege
            (fun name => (p.Config.Spec.Hosts.filter
              (fun g => decide (g.Metadata.Hostname = name))).length)
            p.Config.Spec.Hosts s).1 with
          | [] => none
          | f :: fs => some (f :: fs)) ∧
      (ValidateHosts.Run checkPrivilege p s).2 =
        (validationOutcome checkPrivilege
          (fun name => (p.Config.Spec.Hosts.filter
            (fun g => decide (g.Metadata.Hostname = name))).length)
          p.Config.Spec.Hosts s).2) ∧
    (∀ s : σ,
      (ValidateHosts.Run (logPrivilege checkPrivilege) p (s, [])).2.2 =
        p.Config.Spec.Hosts.filter (fun h =>
          decide ((p.Config.Spec.Hosts.filter
            (fun g => decide (g.Metadata.Hostname = h.Metadata.Hostname))).length ≤ 1))) ∧
    (∀ (s : σ) (h : Host), h ∈ p.Config.Spec.Hosts →
      (p.Config.Spec.Hosts.filter
        (fun g => decide (g.Metadata.Hostname = h.Metadata.Hostname))).length > 1 →
      ∃ fs, (ValidateHosts.Run checkPrivilege p s).1.1 = some fs ∧
        (h, "hostname is not unique: " ++ h.Metadata.Hostname) ∈ fs ∧
        ∀ e, (h, e) ∈ fs → e = "hostname is not unique: " ++ h.Metadata.Hostname) := by
  have hrun : ∀ {τ : Type} (cp : Host → τ → Option String × τ) (s : τ),
      ValidateHosts.Run cp p s =
        ((aggregate (validationOutcome cp
            (fun name => (p.Config.Spec.Hosts.filter
              (fun g => decide (g.Metadata.Hostname = name))).length)
            p.Config.Spec.Hosts s).1,
          (ValidateHosts.Run cp p s).1.2),
         (validationOutcome cp
            (fun name => (p.Config.Spec.Hosts.filter
              (fun g => decide (g.Metadata.Hostname = name))).length)
            p.Config.Spec.Hosts s).2) := by
    intro τ cp s
    have hc := hncount_after_Run cp p s
    simp only [ValidateHosts.Run] at hc ⊢
    rw [parallelDo_checks, hc]
  have hagg : ∀ fs : List (Host × String),
      aggregate fs = (match fs with
        | [] => none
        | f :: gs => some (f :: gs)) := by
    intro fs
    cases fs <;> simp [aggregate]
  refine ⟨runChain_checks checkPrivilege p, fun s => ?_, fun s => ?_, fun s h hh hd => ?_⟩
  · rw [hrun checkPrivilege s]
    exact ⟨hagg _, rfl⟩
  · rw [hrun (logPrivilege checkPrivilege) (s, [])]
    simp only [validationOutcome_log, List.nil_append]
  · rw [hrun checkPrivilege s]
    obtain ⟨h1, h2⟩ := validationOutcome_mem checkPrivilege
      (fun name => (p.Config.Spec.Hosts.filter
        (fun g => decide (g.Metadata.Hostname = name))).length) p.Config.Spec.Hosts s
    have hmem := h1 h hh hd
    refine ⟨_, ?_, hmem, fun e he => (h2 h e he).2 hd⟩
    simp only [aggregate]
    rw [if_neg (List.ne_nil_of_mem hmem)]

/-- Witness of `validation_chain_short_circuits`: with the hosts node1, node1
and node2 and a privilege check that fails everywhere, the privilege check is
invoked on the node2 host only, and the node1 host is reported with its
uniqueness failure and no other. -/
theorem validation_chain_short_circuits_witness :
    (ValidateHosts.Run (logPrivilege denyPrivilege)
      ⟨mkCluster [mkHost "node1" "" "", mkHost "node1" "" "", mkHost "node2" "" ""] "v1.29.2",
        fun _ => 0⟩ (0, [])).2.2 = [mkHost "node2" "" ""] ∧
    (∃ fs, (ValidateHosts.Run denyPrivilege
      ⟨mkCluster [mkHost "node1" "" "", mkHost "node1" "" "", mkHost "node2" "" ""] "v1.29.2",
        fun _ => 0⟩ 0).1.1 = some fs ∧
      (mkHost "node1" "" "", "hostname is not unique: " ++ (mkHost "node1" "" "").Metadata.Hostname)
        ∈ fs ∧
      ∀ e, (mkHost "node1" "" "", e) ∈ fs →
        e = "hostname is not unique: " ++ (mkHost "node1" "" "").Metadata.Hostname) :=
  ⟨((validation_chain_short_circuits denyPrivilege
      ⟨mkCluster [mkHost "node1" "" "", mkHost "node1" "" "", mkHost "node2" "" ""] "v1.29.2",
        fun _ => 0⟩).2.2.1 0).trans (by decide),
   (validation_chain_short_circuits denyPrivilege
      ⟨mkCluster [mkHost "node1" "" "", mkHost "node1" "" "", mkHost "node2" "" ""] "v1.29.2",
        fun _ => 0⟩).2.2.2 0 (mkHost "node1" "" "") (by decide) (by decide)⟩

theorem UpsertFile_on_absent (mvSkipFails : Bool) (fs : RemoteFS) (P A t : String)
    (rest : List String) (hP : fs.files P = none) (htemps : fs.temps = t :: rest)
    (ht : fs.files t = none) (htP : t ≠ P) :
    UpsertFile (fsHost mvSkipFails) P A fs =
      (none, ⟨fun q => if q = P then some A else if q = t then none else fs.files q, rest⟩) := by
  have hPt : ¬ P = t := fun h => htP h.symm
  have hfun : (fun q => if q = t then none else if q = P then some A else
        if q = t then none else if q = t then some A else if q = t then some "" else
          fs.files q) =
      (fun q => if q = P then some A else if q = t then none else fs.files q) := by
    funext q
    by_cases hq : q = t
    · subst hq; simp [htP]
    · simp [hq]
  simp [UpsertFile, UpsertFile.body, TempFile, withDefer, rmTemp, fsHost, fsExec, Cmd.plain,
    htemps, ht, hP, htP, hPt, exitOk, exitFail, RemoteFS.write, RemoteFS.remove, hfun]

theorem UpsertFile_on_existing (mvSkipFails : Bool) (fs : RemoteFS) (P B C t : String)
    (rest : List String) (hP : fs.files P = some C) (htemps : fs.temps = t :: rest)
    (ht : fs.files t = none) :
    UpsertFile (fsHost mvSkipFails) P B fs =
      (some (if mvSkipFails then "upsert failed: command failed: exit status 1"
        else "upsert failed"),
        ⟨fun q => if q = t then none else fs.files q, rest⟩) := by
  have htP : t ≠ P := fun h => by rw [h, hP] at ht; exact Option.noConfusion ht
  have hPt : ¬ P = t := fun h => htP h.symm
  have hfun : (fun q => if q = t then none else if q = t then some B else
        if q = t then some "" else fs.files q) =
      (fun q => if q = t then none else fs.files q) := by
    funext q
    by_cases hq : q = t <;> simp [hq]
  cases mvSkipFails <;>
    simp [UpsertFile, UpsertFile.body, TempFile, withDefer, rmTemp, fsHost, fsExec, Cmd.plain,
      htemps, ht, hP, htP, hPt, exitOk, exitFail, RemoteFS.write, RemoteFS.remove, hfun]

/-- C3: atomic upsert never overwrites. On the modelled filesystem, where `P`
does not exist and `mktemp` hands out two unused names other than `P`,
`UpsertFile P A` succeeds and leaves `P` holding `A`; the `UpsertFile P B` that
follows leaves `P` holding `A` and returns an upsert-failed error, whichever
exit status `mv -n` gives when it skips, for all contents `A` and `B`. -/
theorem UpsertFile_never_overwrites (mvSkipFails : Bool) (fs : RemoteFS)
    (P A B t1 t2 : String) (rest : List String)
    (hP : fs.files P = none) (htemps : fs.temps = t1 :: t2 :: rest)
    (h1 : fs.files t1 = none) (h2 : fs.files t2 = none) (h1P : t1 ≠ P) (h2P : t2 ≠ P) :
    (UpsertFile (fsHost mvSkipFails) P A fs).1 = none ∧
    (UpsertFile (fsHost mvSkipFails) P A fs).2.files P = some A ∧
    (UpsertFile (fsHost mvSkipFails) P B (UpsertFile (fsHost mvSkipFails) P A fs).2).2.files P
      = some A ∧
    (UpsertFile (fsHost mvSkipFails) P B (UpsertFile (fsHost mvSkipFails) P A fs).2).1 =
      some (if mvSkipFails then "upsert failed: command failed: exit status 1"
        else "upsert failed") := by
  have hPt2 : ¬ P = t2 := fun h => h2P h.symm
  rw [UpsertFile_on_absent mvSkipFails fs P A t1 (t2 :: rest) hP htemps h1 h1P]
  rw [UpsertFile_on_existing mvSkipFails _ P B A t2 rest (by simp) rfl (by simp [h2P, h2])]
  simp [hPt2]

/-- Witness of `UpsertFile_never_overwrites`: an empty filesystem, the join
token path and two temporary names. -/
theorem UpsertFile_never_overwrites_witness :
    (UpsertFile (fsHost false) "/etc/k0s/k0stoken" "A"
      ⟨fun _ => none, ["/tmp/tmp.1", "/tmp/tmp.2"]⟩).1 = none ∧
    (UpsertFile (fsHost false) "/etc/k0s/k0stoken" "A"
      ⟨fun _ => none, ["/tmp/tmp.1", "/tmp/tmp.2"]⟩).2.files "/etc/k0s/k0stoken" = some "A" ∧
    (UpsertFile (fsHost false) "/etc/k0s/k0stoken" "B"
      (UpsertFile (fsHost false) "/etc/k0s/k0stoken" "A"
        ⟨fun _ => none, ["/tmp/tmp.1", "/tmp/tmp.2"]⟩).2).2.files "/etc/k0s/k0stoken"
      = some "A" ∧
    (UpsertFile (fsHost false) "/etc/k0s/k0stoken" "B"
      (UpsertFile (fsHost false) "/etc/k0s/k0stoken" "A"
        ⟨fun _ => none, ["/tmp/tmp.1", "/tmp/tmp.2"]⟩).2).1 = some "upsert failed" :=
  UpsertFile_never_overwrites false ⟨fun _ => none, ["/tmp/tmp.1", "/tmp/tmp.2"]⟩
    "/etc/k0s/k0stoken" "A" "B" "/tmp/tmp.1" "/tmp/tmp.2" [] rfl rfl rfl rfl
    (by decide) (by decide)


theorem scriptHost_log (c : Cmd) (st : Script) :
    (scriptHost.exec c st).2.log = st.log ++ [c] := by
  unfold scriptHost
  cases hp : st.pending <;> simp [hp]

/-- The sibling of `UpsertFile`: once `TempFile` has succeeded with `tmp`, the
last command `DownloadK0s` issues is the removal of `tmp`, whatever the results
of the commands in between, and the result is the one of the steps before it. -/
theorem DownloadK0s_releases_temp (x : Ext) (pf : PathFuncs) (version arch tmp : String)
    (rs : List ExecResult) :
    (DownloadK0s x pf scriptHost version arch ⟨⟨tmp, none⟩ :: rs, []⟩).2.log =
      (DownloadK0s.body x pf scriptHost version arch tmp ⟨rs, [Cmd.plain "mktemp"]⟩).2.log ++
        [⟨"rm -f \"%s\"", [tmp], false, none⟩] ∧
    (DownloadK0s x pf scriptHost version arch ⟨⟨tmp, none⟩ :: rs, []⟩).1 =
      (DownloadK0s.body x pf scriptHost version arch tmp ⟨rs, [Cmd.plain "mktemp"]⟩).1 := by
  have ht : TempFile scriptHost ⟨⟨tmp, none⟩ :: rs, []⟩ =
      (⟨tmp, none⟩, ⟨rs, [Cmd.plain "mktemp"]⟩) := rfl
  simp only [DownloadK0s, ht, withDefer, rmTemp, scriptHost_log, and_self]

/-- C9 fails on `UpsertFile`: `mktemp` succeeds with `/tmp/tmp.1`, the write
`cat > "/tmp/tmp.1"` fails; `UpsertFile` returns that error after two commands,
`mktemp` and `cat`, and no `rm -f` of the temporary file is issued. -/
theorem UpsertFile_leaks_temp_on_failed_write :
    UpsertFile scriptHost "/etc/k0s/k0stoken" "token"
        ⟨[⟨"/tmp/tmp.1", none⟩, ⟨"", some "exit status 1"⟩], []⟩ =
      (some "exit status 1",
        ⟨[], [Cmd.plain "mktemp", ⟨"cat > \"%s\"", ["/tmp/tmp.1"], true, some "token"⟩]⟩) ∧
    (⟨"rm -f \"%s\"", ["/tmp/tmp.1"], true, none⟩ : Cmd) ∉
      (UpsertFile scriptHost "/etc/k0s/k0stoken" "token"
        ⟨[⟨"/tmp/tmp.1", none⟩, ⟨"", some "exit status 1"⟩], []⟩).2.log := by
  decide

/-- C4, as stated, fails: the desired version string `latest` does not parse;
the stat, the transfer, the chmod, the touch and the version query all succeed,
the observed version v1.29.1 differs from the desired one, and yet the host's
task returns no error. -/
theorem uploadBinary_version_mismatch_counterexample :
    (quietCollab "v1.29.1").Stat (mkHost "node1" "/tmp/k0s" "").UploadBinaryPath () =
      ((0, none), ()) ∧
    UploadBinaries.transfer (quietCollab "v1.29.1") Linux.paths (mkHost "node1" "/tmp/k0s" "") () =
      (none, ()) ∧
    (quietCollab "v1.29.1").Chmod Linux.paths.K0sBinaryPath "0700" () = (none, ()) ∧
    (quietCollab "v1.29.1").Touch Linux.paths.K0sBinaryPath 0 () = (none, ()) ∧
    K0sBinaryVersion plainVersions Linux.paths (quietCollab "v1.29.1").conn () =
      (.ok [1, 29, 1], ()) ∧
    plainVersions.render [1, 29, 1] ≠
      (mkCluster [mkHost "node1" "/tmp/k0s" ""] "latest").Spec.K0s.Version ∧
    (UploadBinaries.uploadBinary plainVersions (quietCollab "v1.29.1") Linux.paths
        ⟨mkCluster [mkHost "node1" "/tmp/k0s" ""] "latest", [mkHost "node1" "/tmp/k0s" ""]⟩
        (mkHost "node1" "/tmp/k0s" "") ()).1.1 = none :=
  ⟨rfl, rfl, rfl, rfl, rfl, by decide, by decide⟩

/-- C4, amended: version reconciliation. When the stat, the transfer, the
chmod, the touch and the version query of `uploadBinary` succeed, the desired
version string parses as a version and the observed version is not equal to it,
the host's task fails with an error naming the observed and the desired
version, and the host's recorded binary version holds the observed version. -/
theorem uploadBinary_version_mismatch {σ V : Type} (vl : VersionLib V) (c : Collab σ)
    (pf : PathFuncs) (p : UploadBinaries) (h : Host) (s s1 s2 s3 s4 s5 : σ) (modTime : Nat)
    (observed desired : V)
    (hStat : c.Stat h.UploadBinaryPath s = ((modTime, none), s1))
    (hTransfer : UploadBinaries.transfer c pf h s1 = (none, s2))
    (hChmod : c.Chmod pf.K0sBinaryPath "0700" s2 = (none, s3))
    (hTouch : c.Touch pf.K0sBinaryPath modTime s3 = (none, s4))
    (hQuery : K0sBinaryVersion vl pf c.conn s4 = (.ok observed, s5))
    (hDesired : vl.NewVersion p.Config.Spec.K0s.Version = .ok desired)
    (hDiff : vl.Equal desired observed = false) :
    (UploadBinaries.uploadBinary vl c pf p h s).1.1 =
      some ("uploaded k0s binary version is " ++ vl.render observed ++ " not " ++
        vl.render desired) ∧
    (UploadBinaries.uploadBinary vl c pf p h s).1.2.Metadata.K0sBinaryVersion =
      vl.render observed := by
  simp [UploadBinaries.uploadBinary, hStat, hTransfer, hChmod, hTouch, hQuery, hDesired, hDiff,
    Host.setK0sBinaryVersion]

/-- Witness of `uploadBinary_version_mismatch`: observed v1.29.1, desired
v1.29.2. -/
theorem uploadBinary_version_mismatch_witness :
    (UploadBinaries.uploadBinary plainVersions (quietCollab "v1.29.1") Linux.paths
        ⟨mkCluster [mkHost "node1" "/tmp/k0s" ""] "v1.29.2", [mkHost "node1" "/tmp/k0s" ""]⟩
        (mkHost "node1" "/tmp/k0s" "") ()).1.1 =
      some "uploaded k0s binary version is v1.29.1 not v1.29.2" ∧
    (UploadBinaries.uploadBinary plainVersions (quietCollab "v1.29.1") Linux.paths
        ⟨mkCluster [mkHost "node1" "/tmp/k0s" ""] "v1.29.2", [mkHost "node1" "/tmp/k0s" ""]⟩
        (mkHost "node1" "/tmp/k0s" "") ()).1.2.Metadata.K0sBinaryVersion = "v1.29.1" :=
  uploadBinary_version_mismatch plainVersions (quietCollab "v1.29.1") Linux.paths
    ⟨mkCluster [mkHost "node1" "/tmp/k0s" ""] "v1.29.2", [mkHost "node1" "/tmp/k0s" ""]⟩
    (mkHost "node1" "/tmp/k0s" "") () () () () () () 0 [1, 29, 1] [1, 29, 2]
    rfl rfl rfl rfl rfl rfl rfl

/-- C5, as stated, fails: the desired version string `latest` does not parse,
the installed binary reports v1.29.1, and `uploadBinary` returns without error
with v1.29.1 recorded, which is not the desired version. -/
theorem uploadBinary_unparsable_desired_counterexample :
    (UploadBinaries.uploadBinary plainVersions (quietCollab "v1.29.1") Linux.paths
        ⟨mkCluster [mkHost "node1" "/tmp/k0s" ""] "latest", [mkHost "node1" "/tmp/k0s" ""]⟩
        (mkHost "node1" "/tmp/k0s" "") ()).1.1 = none ∧
    (UploadBinaries.uploadBinary plainVersions (quietCollab "v1.29.1") Linux.paths
        ⟨mkCluster [mkHost "node1" "/tmp/k0s" ""] "latest", [mkHost "node1" "/tmp/k0s" ""]⟩
        (mkHost "node1" "/tmp/k0s" "") ()).1.2.Metadata.K0sBinaryVersion = "v1.29.1" ∧
    (UploadBinaries.uploadBinary plainVersions (quietCollab "v1.29.1") Linux.paths
        ⟨mkCluster [mkHost "node1" "/tmp/k0s" ""] "latest", [mkHost "node1" "/tmp/k0s" ""]⟩
        (mkHost "node1" "/tmp/k0s" "") ()).1.2.Metadata.K0sBinaryVersion ≠
      (mkCluster [mkHost "node1" "/tmp/k0s" ""] "latest").Spec.K0s.Version ∧
    plainVersions.NewVersion "latest" = .error "Malformed version: latest" := by
  refine ⟨by decide, by decide, by decide, rfl⟩

/-- C5, amended: when the desired version string parses as a version, a return
of `uploadBinary` without error means that the version query succeeded, that
its result is recorded in the host's metadata, and that the desired version is
equal to it. -/
theorem uploadBinary_success_means_equal {σ V : Type} (vl : VersionLib V) (c : Collab σ)
    (pf : PathFuncs) (p : UploadBinaries) (h h1 : Host) (s s5 : σ) (desired : V)
    (hDesired : vl.NewVersion p.Config.Spec.K0s.Version = .ok desired)
    (hOk : UploadBinaries.uploadBinary vl c pf p h s = ((none, h1), s5)) :
    ∃ (observed : V) (s4 : σ), K0sBinaryVersion vl pf c.conn s4 = (.ok observed, s5) ∧
      h1.Metadata.K0sBinaryVersion = vl.render observed ∧
      vl.Equal desired observed = true := by
  unfold UploadBinaries.uploadBinary at hOk
  split at hOk
  · simp at hOk
  · split at hOk
    · simp at hOk
    · split at hOk
      · simp at hOk
      · split at hOk
        · simp at hOk
        · split at hOk
          · simp at hOk
          · rename_i observed s5q hq
            rw [hDesired] at hOk
            by_cases he : vl.Equal desired observed = true
            · simp [he] at hOk
              obtain ⟨hh, hs⟩ := hOk
              subst hh hs
              exact ⟨observed, _, hq, rfl, he⟩
            · simp [he] at hOk

/-- Witness of `uploadBinary_success_means_equal`: installed and desired
version are both v1.29.2. -/
theorem uploadBinary_success_means_equal_witness :
    ∃ (observed : List Nat) (s4 : Unit),
      K0sBinaryVersion plainVersions Linux.paths (quietCollab "v1.29.2").conn s4 =
        (.ok observed, ()) ∧
      (mkHost "node1" "/tmp/k0s" "v1.29.2").Metadata.K0sBinaryVersion =
        plainVersions.render observed ∧
      plainVersions.Equal [1, 29, 2] observed = true :=
  uploadBinary_success_means_equal plainVersions (quietCollab "v1.29.2") Linux.paths
    ⟨mkCluster [mkHost "node1" "/tmp/k0s" ""] "v1.29.2", [mkHost "node1" "/tmp/k0s" ""]⟩
    (mkHost "node1" "/tmp/k0s" "") (mkHost "node1" "/tmp/k0s" "v1.29.2") () () [1, 29, 2]
    rfl rfl


theorem splitChars_length (sep : Char) (l : List Char) :
    (splitChars sep l).length = l.count sep + 1 := by
  induction l with
  | nil => simp [splitChars]
  | cons c cs ih =>
    by_cases hc : c = sep
    · subst hc
      simp [splitChars, ih]
    · have hne : ¬ (c == sep) = true := by simpa using hc
      rw [splitChars, if_neg hc, List.count_cons, if_neg hne]
      cases hs : splitChars sep cs with
      | nil => rw [hs] at ih; simp at ih
      | cons q qs => rw [hs] at ih; simpa using ih

theorem indexFrom_spec (c : Char) :
    ∀ (l : List Char) (i : Nat),
      (indexFrom c l i = -1 ∧ l.takeWhile (fun d => decide (d ≠ c)) = l) ∨
      (∃ k : Nat, indexFrom c l i = ((i + k : Nat) : Int) ∧
        l.take k = l.takeWhile (fun d => decide (d ≠ c))) := by
  intro l
  induction l with
  | nil => intro i; left; simp [indexFrom]
  | cons d ds ih =>
    intro i
    by_cases hd : d = c
    · right
      exact ⟨0, by simp [indexFrom, hd], by simp [hd]⟩
    · rcases ih (i + 1) with ⟨h1, h2⟩ | ⟨k, h1, h2⟩
      · left
        exact ⟨by simp [indexFrom, hd, h1],
          by rw [List.takeWhile_cons_of_pos (by simpa using hd), h2]⟩
      · right
        refine ⟨k + 1, ?_, by simp [hd, h2]⟩
        simp only [indexFrom, if_neg hd, h1]
        congr 1
        omega

theorem cut_at_slash (item : String) :
    (if Index item '/' ≥ 0 then sliceTo item (Index item '/') else item) =
      String.mk (item.data.takeWhile (fun c => decide (c ≠ '/'))) := by
  rcases indexFrom_spec '/' item.data 0 with ⟨h1, h2⟩ | ⟨k, h1, h2⟩
  · have : Index item '/' = -1 := h1
    rw [this, h2]
    simp
  · have : Index item '/' = (k : Int) := by
      unfold Index
      rw [h1]
      simp
    rw [this, ← h2]
    simp [sliceTo]

theorem PrivateAddress.loop_cons (publicip line : String) (rest : List String) :
    PrivateAddress.loop publicip (line :: rest) =
      match lineAddress line with
      | some a => if publicip ≠ a then (a, none) else PrivateAddress.loop publicip rest
      | none => PrivateAddress.loop publicip rest := by
  rw [PrivateAddress.loop]
  simp only [cut_at_slash, lineAddress]
  cases hg : (Fields line).get? 3 with
  | none =>
    have hlen : (Fields line).length < 4 := by
      rw [List.get?_eq_none] at hg
      omega
    simp [hlen]
  | some tok =>
    have hlen : ¬ (Fields line).length < 4 := by
      intro hlt
      have := List.get?_eq_none.2 (show (Fields line).length ≤ 3 by omega)
      rw [this] at hg
      exact Option.noConfusion hg
    have hgetD : (Fields line).getD 3 "" = tok := by
      simp [List.getD, ← List.get?_eq_getElem?, hg]
    simp only [hlen, if_false, hgetD, Split, List.length_map, splitChars_length]
    by_cases hc : (List.takeWhile (fun c => decide (c ≠ '/')) tok.data).count '.' = 3
    · have hc4 : (List.takeWhile (fun c => decide (c ≠ '/')) tok.data).count '.' + 1 = 4 := by
        omega
      rw [if_pos hc4, if_pos hc]
    · have hc4 : ¬ (List.takeWhile (fun c => decide (c ≠ '/')) tok.data).count '.' + 1 = 4 := by
        omega
      rw [if_neg hc4, if_neg hc]

theorem PrivateAddress.loop_eq_find (publicip : String) (lines : List String) :
    PrivateAddress.loop publicip lines =
      match (lines.filterMap lineAddress).find? (fun a => decide (a ≠ publicip)) with
      | some a => (a, none)
      | none => ("", some "not found") := by
  induction lines with
  | nil => rfl
  | cons line rest ih =>
    rw [PrivateAddress.loop_cons]
    cases hl : lineAddress line with
    | none => simp only [List.filterMap_cons, hl]; exact ih
    | some a =>
      simp only [List.filterMap_cons, hl, List.find?_cons]
      by_cases hp : publicip = a
      · have : decide (a ≠ publicip) = false := by simp [hp]
        simp only [this, hp, ne_eq, not_true_eq_false, if_false]
        rw [← hp]; exact ih
      · have : decide (a ≠ publicip) = true := by simpa using fun h => hp h.symm
        simp [this, hp]

theorem wellFormedAddress_dots (s : String) (h : wellFormedAddress s = true) :
    s.data.count '.' = 3 := by
  have hlen := splitChars_length '.' s.data
  unfold wellFormedAddress at h
  split at h
  · rename_i a b c d heq
    rw [heq] at hlen
    simp only [List.length_cons, List.length_nil] at hlen
    omega
  · exact Bool.noConfusion h

/-- C6, as stated, fails: the token `a.b.c.d` is malformed, yet it is not
ignored. With `a.b.c.d` listed before 10.0.0.7 and 198.51.100.5 public,
`PrivateAddress` returns `a.b.c.d`, where the first well-formed address of the
listing that differs from the public one is 10.0.0.7. The same happens with
the token `999.1.2.3000`. -/
theorem PrivateAddress_malformed_counterexample :
    wellFormedAddress "a.b.c.d" = false ∧
    PrivateAddress (constHost ("2: eth0    inet a.b.c.d/24 scope global eth0\n" ++
        "2: eth0    inet 10.0.0.7/24 brd 10.0.0.255 scope global eth0"))
      "eth0" "198.51.100.5" () = (("a.b.c.d", none), ()) ∧
    firstWellFormedAddress ("2: eth0    inet a.b.c.d/24 scope global eth0\n" ++
        "2: eth0    inet 10.0.0.7/24 brd 10.0.0.255 scope global eth0") "198.51.100.5" =
      some "10.0.0.7" ∧
    wellFormedAddress "999.1.2.3000" = false ∧
    PrivateAddress (constHost ("2: eth0    inet 999.1.2.3000/24 scope global eth0\n" ++
        "2: eth0    inet 10.0.0.7/24 brd 10.0.0.255 scope global eth0"))
      "eth0" "198.51.100.5" () = (("999.1.2.3000", none), ()) := by
  decide

/-- C6, amended: private-address selection. When the address listing command
succeeds, `PrivateAddress` returns the first address of the listing, in listing
order, that differs from the public address, and fails with "not found" when
there is none. The addresses of a listing are the fourth whitespace-separated
fields of its lines, cut before a `/`, that have exactly four dot-separated
parts; lines with fewer than four fields and fields with another number of
dot-separated parts are passed over, and what the four parts hold is not
examined. No well-formed address is passed over: a line that offers a
well-formed address offers it as an address of the listing. -/
theorem PrivateAddress_selects_first {σ : Type} (h : OsHost σ) (iface publicip listing : String)
    (s s1 : σ)
    (hr : h.exec (Cmd.plain (Sprintf "%s ip -o addr show dev %s scope global" [sbinPath, iface]))
      s = (⟨listing, none⟩, s1)) :
    PrivateAddress h iface publicip s =
      (match (listedAddresses listing).find? (fun a => decide (a ≠ publicip)) with
        | some a => (a, none)
        | none => ("", some "not found"), s1) ∧
    (∀ line a, lineWellFormedAddress line = some a → lineAddress line = some a) := by
  refine ⟨?_, fun line a hl => ?_⟩
  · simp only [PrivateAddress, hr, PrivateAddress.loop_eq_find, listedAddresses]
  · unfold lineWellFormedAddress at hl
    unfold lineAddress
    cases hg : (Fields line).get? 3 with
    | none => rw [hg] at hl; exact Option.noConfusion hl
    | some tok =>
      rw [hg] at hl
      simp only at hl ⊢
      by_cases hw : wellFormedAddress
          (String.mk (tok.data.takeWhile (fun c => decide (c ≠ '/')))) = true
      · rw [if_pos hw] at hl
        rw [if_pos (wellFormedAddress_dots _ hw)]
        exact hl
      · rw [if_neg hw] at hl
        exact Option.noConfusion hl

/-- Witness of `PrivateAddress_selects_first`: with the addresses 198.51.100.5
and 203.0.113.9 listed and 198.51.100.5 public the result is 203.0.113.9; with
only the public address listed, and with an empty listing, it is "not found". -/
theorem PrivateAddress_selects_first_witness :
    PrivateAddress (constHost ("2: eth0    inet 198.51.100.5/24 brd 198.51.100.255 scope " ++
        "global eth0\n2: eth0    inet 203.0.113.9/24 brd 203.0.113.255 scope global eth0"))
      "eth0" "198.51.100.5" () = (("203.0.113.9", none), ()) ∧
    PrivateAddress (constHost "2: eth0    inet 198.51.100.5/24 scope global eth0")
      "eth0" "198.51.100.5" () = (("", some "not found"), ()) ∧
    PrivateAddress (constHost "") "eth0" "198.51.100.5" () = (("", some "not found"), ()) :=
  ⟨(PrivateAddress_selects_first (constHost _) "eth0" "198.51.100.5" _ () () rfl).1.trans
      (by decide),
   (PrivateAddress_selects_first (constHost _) "eth0" "198.51.100.5" _ () () rfl).1.trans
      (by decide),
   (PrivateAddress_selects_first (constHost _) "eth0" "198.51.100.5" _ () () rfl).1.trans
      (by decide)⟩


theorem digitsValue_ge (ds : List Char) : ∀ n : Nat, n ≤ digitsValue n ds := by
  induction ds with
  | nil => intro n; exact Nat.le_refl n
  | cons c cs ih =>
    intro n
    have h := ih (n * 10 + (c.toNat - 48))
    simp only [digitsValue, List.foldl_cons] at h ⊢
    omega

theorem parseUintLoop_digits (ds : List Char) :
    ∀ n : Nat, (∀ c ∈ ds, '0' ≤ c ∧ c ≤ '9') → n < 2 ^ 64 →
      parseUintLoop ds n =
        if digitsValue n ds < 2 ^ 64 then .ok (digitsValue n ds) else .error .outOfRange := by
  induction ds with
  | nil =>
    intro n _ hn
    simp only [parseUintLoop, digitsValue, List.foldl_nil]
    rw [if_pos hn]
  | cons c cs ih =>
    intro n hall hn
    have hc : '0' ≤ c ∧ c ≤ '9' := hall c (List.mem_cons_self c cs)
    have hcs : ∀ d ∈ cs, '0' ≤ d ∧ d ≤ '9' := fun d hd => hall d (List.mem_cons_of_mem c hd)
    have hge := digitsValue_ge cs (n * 10 + (c.toNat - 48))
    have hstep : digitsValue n (c :: cs) = digitsValue (n * 10 + (c.toNat - 48)) cs := rfl
    rw [parseUintLoop, if_pos hc, hstep]
    by_cases h1 : n ≥ (2 ^ 64 - 1) / 10 + 1
    · rw [if_pos h1, if_neg]
      have : (2 ^ 64 - 1) / 10 + 1 = 1844674407370955162 := by norm_num
      omega
    · rw [if_neg h1]
      by_cases h2 : n * 10 + (c.toNat - 48) ≥ 2 ^ 64
      · rw [if_pos h2, if_neg]
        omega
      · rw [if_neg h2]
        exact ih _ hcs (by omega)

theorem parseUintLoop_other (ds : List Char) :
    ∀ n : Nat, ¬ (∀ c ∈ ds, '0' ≤ c ∧ c ≤ '9') → ∃ e, parseUintLoop ds n = .error e := by
  induction ds with
  | nil => intro n h; exact absurd (fun c hc => absurd hc (List.not_mem_nil c)) h
  | cons c cs ih =>
    intro n h
    rw [parseUintLoop]
    by_cases hc : '0' ≤ c ∧ c ≤ '9'
    · rw [if_pos hc]
      have hcs : ¬ (∀ d ∈ cs, '0' ≤ d ∧ d ≤ '9') := by
        intro hall
        apply h
        intro d hd
        rcases List.mem_cons.1 hd with rfl | hd
        · exact hc
        · exact hall d hd
      by_cases h1 : n ≥ (2 ^ 64 - 1) / 10 + 1
      · exact ⟨_, by rw [if_pos h1]⟩
      · rw [if_neg h1]
        by_cases h2 : n * 10 + (c.toNat - 48) ≥ 2 ^ 64
        · exact ⟨_, by rw [if_pos h2]⟩
        · rw [if_neg h2]
          exact ih _ hcs
    · exact ⟨_, by rw [if_neg hc]⟩

theorem parseInt_spec (cs : List Char) :
    (∀ v, decimalInt ⟨cs⟩ = some v → parseInt cs = (v, none)) ∧
    (decimalInt ⟨cs⟩ = none → ∃ n e, parseInt cs = (n, some e)) := by
  cases cs with
  | nil => simp [decimalInt, parseInt]
  | cons c rest =>
    simp only [decimalInt, parseInt, List.head?_cons, List.tail_cons, Option.some.injEq]
    generalize hds : (if c = '+' ∨ c = '-' then rest else c :: rest) = ds
    by_cases hnil : ds = []
    · simp [hnil]
    · by_cases hall : ∀ d ∈ ds, '0' ≤ d ∧ d ≤ '9'
      · have hloop := parseUintLoop_digits ds 0 hall (by norm_num)
        rw [if_neg hnil, if_pos ⟨hnil, hall⟩, hloop]
        generalize digitsValue 0 ds = V
        by_cases hneg : c = '-' <;> by_cases hbig : V < 18446744073709551616 <;>
          by_cases hr : 9223372036854775808 < V <;>
          by_cases hr2 : 9223372036854775808 ≤ V <;>
          simp [hneg, hbig, hr, hr2] <;> omega
      · obtain ⟨e, he⟩ := parseUintLoop_other ds 0 hall
        have hcond : ¬ (ds ≠ [] ∧ ∀ d ∈ ds, '0' ≤ d ∧ d ≤ '9') := fun h => hall h.2
        rw [if_neg hnil, if_neg hcond, he]
        cases e <;> simp


theorem Atoi_spec (x : Ext) (s : String) :
    (∀ v, decimalInt s = some v → Atoi x s = (v, none)) ∧
    (decimalInt s = none → ∃ n e, Atoi x s = (n, some e)) := by
  obtain ⟨h1, h2⟩ := parseInt_spec s.data
  refine ⟨fun v hv => ?_, fun hn => ?_⟩
  · simp only [Atoi, h1 v hv]
  · obtain ⟨n, e, he⟩ := h2 hn
    exact ⟨n, numErrorText x s e, by simp only [Atoi, he]⟩

/-- C10, as stated, fails: the outputs `-1` and `1000` are no status codes, yet
`HTTPStatus` returns them as the status with no error; for `-1` the value is
the one of the failure case, without the error. -/
theorem HTTPStatus_counterexample :
    validStatusCode "-1" = false ∧
    HTTPStatus plainExt (constHost "-1") "https://10.0.0.1:6443/version" () =
      ((-1, none), ()) ∧
    validStatusCode "1000" = false ∧
    HTTPStatus plainExt (constHost "1000") "https://10.0.0.1:6443/version" () =
      ((1000, none), ()) := by
  decide

/-- C10, amended: when the command fails, `HTTPStatus` returns -1 and the
command's error; when it succeeds and its output is an optionally signed run of
decimal digits whose value fits a 64-bit `int`, `HTTPStatus` returns that value
with no error, whether or not it is a status code; for every other output it
returns -1 and an error that starts with "invalid response: ". -/
theorem HTTPStatus_parses_integer {σ : Type} (x : Ext) (h : OsHost σ) (url : String)
    (s s1 : σ) (r : ExecResult)
    (hr : h.exec
      (Cmd.plain (Sprintf "curl -kso /dev/null -w \"%%\x7bhttp_code\x7d\" \"%s\"" [url])) s =
        (r, s1)) :
    (∀ e, r.err = some e → HTTPStatus x h url s = ((-1, some e), s1)) ∧
    (r.err = none → ∀ n, decimalInt r.output = some n →
      HTTPStatus x h url s = ((n, none), s1)) ∧
    (r.err = none → decimalInt r.output = none →
      ∃ e, HTTPStatus x h url s = ((-1, some ("invalid response: " ++ e)), s1)) := by
  refine ⟨fun e he => ?_, fun hn n hd => ?_, fun hn hd => ?_⟩
  · simp only [HTTPStatus, hr, he]
  · simp only [HTTPStatus, hr, hn, (Atoi_spec x r.output).1 n hd]
  · obtain ⟨n, e, he⟩ := (Atoi_spec x r.output).2 hd
    exact ⟨e, by simp only [HTTPStatus, hr, hn, he]⟩

/-- Witness of `HTTPStatus_parses_integer`: the output 200 gives the status
200, and a failing command gives -1 with its error. -/
theorem HTTPStatus_parses_integer_witness :
    HTTPStatus plainExt (constHost "200") "https://10.0.0.1:6443/version" () =
      ((200, none), ()) ∧
    HTTPStatus plainExt (failHost "exit status 7") "https://10.0.0.1:6443/version" () =
      ((-1, some "exit status 7"), ()) ∧
    (∃ e, HTTPStatus plainExt (constHost "ok") "https://10.0.0.1:6443/version" () =
      ((-1, some ("invalid response: " ++ e)), ())) :=
  ⟨(HTTPStatus_parses_integer plainExt (constHost "200") "https://10.0.0.1:6443/version"
      () () ⟨"200", none⟩ rfl).2.1 rfl 200 (by decide),
   (HTTPStatus_parses_integer plainExt (failHost "exit status 7")
      "https://10.0.0.1:6443/version" () () ⟨"", some "exit status 7"⟩ rfl).1
      "exit status 7" rfl,
   (HTTPStatus_parses_integer plainExt (constHost "ok") "https://10.0.0.1:6443/version"
      () () ⟨"ok", none⟩ rfl).2.2 rfl (by decide)⟩

end K0sctl
